import Mathlib

/-!
Shallow embedding of `src/v/pandaproxy/kafka_client_cache.cc` (Redpanda).

The cache maps a caller identity (principal string) to a shared Kafka client
handle.  The boost multi-index container `_cache` (recency list + hash view
over the same entries) is modelled as a single list of entries, head = most
recently used; the hash lookup `inner_hash.find(k)` becomes a first-match
search by key (keys are unique by construction, since insertion happens only
on a miss).  A client handle (`client_ptr`, a shared pointer) is modelled as
a numeric id allocated from a counter; the client's mutable
`scram_password` configuration lives in an association heap keyed by id.
Time (`lowres_clock` / `timestamped_user::clock`) is a `Nat` of
milliseconds passed into each operation.  The asynchronous
`client->stop()` call is modelled by appending the client id to a stop log
(the stop attempt); a stop that fails with an exception is modelled by a
`failing` set of client ids, and the `handle_exception` logging of such a
failure by a separate fail log.
-/

namespace KafkaClientCache

/-- A cache entry (`timestamped_user` in the source): the identity key, the
client handle id, and the last-used timestamp. -/
structure Entry where
  key : String
  client : Nat
  last_used : Nat
  deriving DecidableEq, Repr

/-- Construction parameters of `kafka_client_cache`: `_cache_max_size` and
`_keep_alive` (milliseconds). -/
structure Config where
  max_size : Nat
  keep_alive : Nat
  deriving DecidableEq, Repr

/-- The mutable state of a `kafka_client_cache` plus the client heap and the
observation logs for teardown.  `cache` is the recency list (`underlying_list`,
head = most recent), `evicted_items` the pending-teardown buffer,
`timer_armed`/`timer_timeout` the state of `_clean_and_evict_timer`.
`nextId` allocates fresh client handles; `passwords` records each client's
configured `scram_password` (latest binding first); `stopLog` records, in
order, every client id whose `stop()` was awaited; `failLog` records the ids
whose `stop()` failed and was logged by `handle_exception`. -/
structure CacheState where
  cache : List Entry
  evicted_items : List Entry
  nextId : Nat
  passwords : List (Nat × String)
  stopLog : List Nat
  failLog : List Nat
  timer_armed : Bool
  timer_timeout : Nat
  deriving DecidableEq, Repr

/-- A freshly constructed cache: both structures empty, timer unarmed. -/
def init : CacheState :=
  { cache := [], evicted_items := [], nextId := 0, passwords := [],
    stopLog := [], failLog := [], timer_armed := false, timer_timeout := 0 }

/-- Reading `client->config().scram_password.value()`: the latest binding for the
client id; `""` is the template configuration's default (no SCRAM password
set). -/
def get_pass (ps : List (Nat × String)) (id : Nat) : String :=
  (((ps.find? (fun p => p.fst == id)).map Prod.snd).getD "")

/-- Lookup `inner_hash.find(k)`: look the identity up in the entry set. -/
def lookup_client (cache : List Entry) (k : String) : Option Entry :=
  cache.find? (fun e => e.key == k)

/-- The short fixed delay `1s` used when (re)arming the cleanup timer after a
capacity eviction, in milliseconds. -/
def evict_delay : Nat := 1000

/-- Factory `make_client`: allocate a fresh client handle from the template
configuration; under HTTP Basic authentication the supplied secret becomes
the client's `scram_password` (the username does not affect any modelled
observation and is kept only in the entry key). -/
def make_client (st : CacheState) (pass : String) (http_basic : Bool) :
    Nat × CacheState :=
  (st.nextId,
   { st with
     nextId := st.nextId + 1,
     passwords := if http_basic then (st.nextId, pass) :: st.passwords
                  else (st.nextId, "") :: st.passwords })

/-- The timer debounce applied after a capacity eviction (lines 71-80):
with `window = now + 1s`, rearm to `window` when the timer is unarmed or its
current timeout lies beyond `window`, else leave it alone. -/
def arm_after_evict (now : Nat) (st : CacheState) : CacheState :=
  if !st.timer_armed
      || (st.timer_armed && decide (now + evict_delay < st.timer_timeout))
  then { st with timer_armed := true, timer_timeout := now + evict_delay }
  else st

/-- Lines 62-81 of `fetch_or_insert`: when the cache is non-empty, move the
back (least recently used) entry of the recency list into `_evicted_items`
and apply the timer debounce. -/
def evict_tail (now : Nat) (st : CacheState) : CacheState :=
  match st.cache.getLast? with
  | none => st
  | some item =>
    arm_after_evict now
      { st with
        cache := st.cache.dropLast,
        evicted_items := st.evicted_items ++ [item] }

/-- Insertion `inner_list.emplace_front(k, client)`: push the freshly built client's
entry onto the front of the recency list with `last_used = now` (the
timestamp initialisation is in the header's `timestamped_user`, not under
`src/`; the spec fixes it as `last_used = now`). -/
def insert_front (now : Nat) (name : String) (r : Nat × CacheState) :
    Nat × CacheState :=
  (r.1, { r.2 with
          cache := { key := name, client := r.1, last_used := now } :: r.2.cache })

/-- Lines 89-96: on a hit, when the supplied secret differs from the client's
configured `scram_password`, update the password in place. -/
def update_pass (pass : String) (e : Entry) (st : CacheState) : CacheState :=
  if get_pass st.passwords e.client ≠ pass
  then { st with passwords := (e.client, pass) :: st.passwords }
  else st

/-- Lines 100-108: refresh the hit entry's `last_used` and relocate it to the
front of the recency list (the other entries keep their relative order). -/
def touch_entry (now : Nat) (name : String) (e : Entry) (st : CacheState) :
    CacheState :=
  { st with
    cache := { e with last_used := now } :: st.cache.eraseP (fun x => x.key == name) }

/-- Operation `kafka_client_cache::fetch_or_insert`.  On a miss: evict the tail if
`size() >= max_size` (the emptiness guard lives inside `evict_tail`), build a
new client, and insert its entry at the front.  On a hit: update the client's
password in place when the supplied secret differs, refresh `last_used`, and
relocate the entry to the front, returning the existing handle. -/
def fetch_or_insert (cfg : Config) (now : Nat) (name pass : String)
    (http_basic : Bool) (st : CacheState) : Nat × CacheState :=
  match lookup_client st.cache name with
  | none =>
    insert_front now name
      (make_client (if cfg.max_size ≤ st.cache.length then evict_tail now st else st)
        pass http_basic)
  | some e => (e.client, touch_entry now name e (update_pass pass e st))

/-- One iteration of the teardown loop in `remove_client_if`:
`co_await item.client->stop().handle_exception(...)` — the stop attempt is
always recorded; a failing stop is additionally logged and swallowed. -/
def stop_one (failing : List Nat) (st : CacheState) (id : Nat) : CacheState :=
  let st1 := { st with stopLog := st.stopLog ++ [id] }
  if id ∈ failing then { st1 with failLog := st1.failLog ++ [id] } else st1

/-- The file-local `remove_client_if`: split the list by the predicate,
keep the non-matching entries in order, and sequentially stop every removed
entry's client (failures logged, never propagated). -/
def remove_client_if (failing : List Nat) (p : Entry → Bool)
    (l : List Entry) (st : CacheState) : List Entry × CacheState :=
  (l.filter (fun e => !(p e)),
   (l.filter p).foldl (fun s e => stop_one failing s e.client) st)

/-- The `is_expired` closure in `clean_stale_clients`:
`now >= item.last_used + keep_alive`. -/
def is_expired (keep_alive now : Nat) (e : Entry) : Bool :=
  decide (e.last_used + keep_alive ≤ now)

/-- Sweep `kafka_client_cache::clean_stale_clients`: remove-and-stop every expired
entry of the recency list, then unconditionally drain `_evicted_items`. -/
def clean_stale_clients (cfg : Config) (failing : List Nat) (now : Nat)
    (st : CacheState) : CacheState :=
  let r1 := remove_client_if failing (is_expired cfg.keep_alive now) st.cache st
  let st1 := { r1.2 with cache := r1.1 }
  let r2 := remove_client_if failing (fun _ => true) st1.evicted_items st1
  { r2.2 with evicted_items := r2.1 }

/-- Shutdown `kafka_client_cache::stop`: unconditionally drain the recency list, then
the pending-teardown buffer. -/
def stop (failing : List Nat) (st : CacheState) : CacheState :=
  let r1 := remove_client_if failing (fun _ => true) st.cache st
  let st1 := { r1.2 with cache := r1.1 }
  let r2 := remove_client_if failing (fun _ => true) st1.evicted_items st1
  { r2.2 with evicted_items := r2.1 }

/-- Accessor `kafka_client_cache::size`. -/
def size (st : CacheState) : Nat := st.cache.length

/-- One externally triggered cache operation, for whole-history statements. -/
inductive Op where
  | fetch (now : Nat) (name pass : String) (http_basic : Bool)
  | clean (failing : List Nat) (now : Nat)
  | shutdown (failing : List Nat)
  deriving DecidableEq, Repr

/-- Interpret one operation on the state. -/
def step (cfg : Config) (st : CacheState) : Op → CacheState
  | .fetch now name pass b => (fetch_or_insert cfg now name pass b st).2
  | .clean failing now => clean_stale_clients cfg failing now st
  | .shutdown failing => stop failing st

/-- Run a sequence of operations from the fresh cache. -/
def run (cfg : Config) (ops : List Op) : CacheState :=
  ops.foldl (step cfg) init

/-- All client ids the cache has ever been responsible for, each in the one
place it currently occupies: active in the index, awaiting teardown in the
buffer, or already stopped. -/
def clientsOf (st : CacheState) : List Nat :=
  st.cache.map Entry.client ++ st.evicted_items.map Entry.client ++ st.stopLog

/-- The multiset of client ids the cache is responsible for. -/
def clientsM (st : CacheState) : Multiset Nat :=
  (st.cache.map Entry.client : Multiset Nat)
    + (st.evicted_items.map Entry.client : Multiset Nat)
    + (st.stopLog : Multiset Nat)

/-- The global handle-accounting invariant: the client ids distributed over
the index, the pending-teardown buffer and the stop log are exactly the
allocated ids `0, ..., nextId - 1`, each occurring exactly once. -/
def Inv (st : CacheState) : Prop :=
  clientsM st = Multiset.range st.nextId

/-- The configuration of the spec's concrete LRU scenario: `max_size = 2`. -/
def demoCfg : Config := { max_size := 2, keep_alive := 1000 }

/-- Scenario state after inserting identity `A`. -/
def demo1 : CacheState := (fetch_or_insert demoCfg 1 "A" "p" true init).2

/-- Scenario state after inserting identities `A`, `B`. -/
def demo2 : CacheState := (fetch_or_insert demoCfg 2 "B" "p" true demo1).2

/-- Scenario state after additionally inserting `C` (evicts `A`). -/
def demo3 : CacheState := (fetch_or_insert demoCfg 3 "C" "p" true demo2).2

/-- Scenario state after touching `B` again (promotes `B`). -/
def demo4 : CacheState := (fetch_or_insert demoCfg 4 "B" "p" true demo3).2

/-- Scenario state after additionally inserting `D` (evicts `C`). -/
def demo5 : CacheState := (fetch_or_insert demoCfg 5 "D" "p" true demo4).2

/-! ### Unfolding lemmas for the teardown loop -/

theorem foldl_stop_one (failing : List Nat) (rem : List Entry) (st : CacheState) :
    rem.foldl (fun s e => stop_one failing s e.client) st
      = { st with
          stopLog := st.stopLog ++ rem.map Entry.client,
          failLog := st.failLog
            ++ (rem.filter (fun e => decide (e.client ∈ failing))).map Entry.client } := by
  induction rem generalizing st with
  | nil => simp
  | cons a t ih =>
    rw [List.foldl_cons, ih]
    by_cases ha : a.client ∈ failing <;>
      simp [stop_one, ha, List.filter_cons, List.append_assoc]

theorem remove_client_if_eq (failing : List Nat) (p : Entry → Bool)
    (l : List Entry) (st : CacheState) :
    remove_client_if failing p l st
      = (l.filter (fun e => !(p e)),
         { st with
           stopLog := st.stopLog ++ (l.filter p).map Entry.client,
           failLog := st.failLog
             ++ ((l.filter p).filter (fun e => decide (e.client ∈ failing))).map
                  Entry.client }) := by
  rw [remove_client_if, foldl_stop_one]

theorem clean_stale_clients_eq (cfg : Config) (failing : List Nat) (now : Nat)
    (st : CacheState) :
    clean_stale_clients cfg failing now st
      = { st with
          cache := st.cache.filter (fun e => !(is_expired cfg.keep_alive now e)),
          evicted_items := [],
          stopLog := st.stopLog
            ++ (st.cache.filter (is_expired cfg.keep_alive now)).map Entry.client
            ++ st.evicted_items.map Entry.client,
          failLog := st.failLog
            ++ ((st.cache.filter (is_expired cfg.keep_alive now)).filter
                  (fun e => decide (e.client ∈ failing))).map Entry.client
            ++ (st.evicted_items.filter
                  (fun e => decide (e.client ∈ failing))).map Entry.client } := by
  simp [clean_stale_clients, remove_client_if_eq, List.append_assoc]

theorem stop_eq (failing : List Nat) (st : CacheState) :
    stop failing st
      = { st with
          cache := [],
          evicted_items := [],
          stopLog := st.stopLog
            ++ st.cache.map Entry.client
            ++ st.evicted_items.map Entry.client,
          failLog := st.failLog
            ++ (st.cache.filter (fun e => decide (e.client ∈ failing))).map Entry.client
            ++ (st.evicted_items.filter
                  (fun e => decide (e.client ∈ failing))).map Entry.client } := by
  simp [stop, remove_client_if_eq, List.append_assoc]

/-! ### Permutation bookkeeping for client handles -/

theorem perm_cons_eraseP {α} (p : α → Bool) :
    ∀ {l : List α} {a : α}, l.find? p = some a → l.Perm (a :: l.eraseP p) := by
  intro l
  induction l with
  | nil => intro a h; simp at h
  | cons b t ih =>
    intro a h
    by_cases hb : p b
    · rw [List.find?_cons_of_pos _ hb] at h
      cases h
      rw [List.eraseP_cons_of_pos hb]
    · rw [List.find?_cons_of_neg _ hb] at h
      rw [List.eraseP_cons_of_neg hb]
      exact ((ih h).cons b).trans (List.Perm.swap a b _)

theorem arm_cache (now : Nat) (st : CacheState) :
    (arm_after_evict now st).cache = st.cache := by
  unfold arm_after_evict; split <;> rfl

theorem arm_evicted (now : Nat) (st : CacheState) :
    (arm_after_evict now st).evicted_items = st.evicted_items := by
  unfold arm_after_evict; split <;> rfl

theorem arm_nextId (now : Nat) (st : CacheState) :
    (arm_after_evict now st).nextId = st.nextId := by
  unfold arm_after_evict; split <;> rfl

theorem arm_passwords (now : Nat) (st : CacheState) :
    (arm_after_evict now st).passwords = st.passwords := by
  unfold arm_after_evict; split <;> rfl

theorem arm_stopLog (now : Nat) (st : CacheState) :
    (arm_after_evict now st).stopLog = st.stopLog := by
  unfold arm_after_evict; split <;> rfl

theorem arm_failLog (now : Nat) (st : CacheState) :
    (arm_after_evict now st).failLog = st.failLog := by
  unfold arm_after_evict; split <;> rfl

theorem clientsOf_coe (st : CacheState) :
    (clientsOf st : Multiset Nat) = clientsM st := by
  simp [clientsOf, clientsM]

theorem update_pass_cache (pass : String) (e : Entry) (st : CacheState) :
    (update_pass pass e st).cache = st.cache := by
  unfold update_pass; split <;> rfl

theorem update_pass_evicted (pass : String) (e : Entry) (st : CacheState) :
    (update_pass pass e st).evicted_items = st.evicted_items := by
  unfold update_pass; split <;> rfl

theorem update_pass_nextId (pass : String) (e : Entry) (st : CacheState) :
    (update_pass pass e st).nextId = st.nextId := by
  unfold update_pass; split <;> rfl

theorem update_pass_stopLog (pass : String) (e : Entry) (st : CacheState) :
    (update_pass pass e st).stopLog = st.stopLog := by
  unfold update_pass; split <;> rfl

theorem clientsM_evict_tail (now : Nat) (st : CacheState) :
    clientsM (evict_tail now st) = clientsM st
      ∧ (evict_tail now st).nextId = st.nextId
      ∧ (evict_tail now st).stopLog = st.stopLog
      ∧ (evict_tail now st).passwords = st.passwords := by
  unfold evict_tail
  cases h : st.cache.getLast? with
  | none => exact ⟨rfl, rfl, rfl, rfl⟩
  | some item =>
    have hc : st.cache.dropLast ++ [item] = st.cache :=
      List.dropLast_append_getLast? item (by simp [h])
    refine ⟨?_, by rw [arm_nextId], by rw [arm_stopLog], by rw [arm_passwords]⟩
    rw [clientsM, arm_cache, arm_evicted, arm_stopLog]
    show ((st.cache.dropLast.map Entry.client : Multiset Nat)
        + ((st.evicted_items ++ [item]).map Entry.client : Multiset Nat)
        + (st.stopLog : Multiset Nat)) = clientsM st
    rw [clientsM]
    conv_rhs => rw [← hc]
    simp only [List.map_append, List.map_cons, List.map_nil, ← Multiset.coe_add]
    abel

theorem clientsM_fetch_miss (cfg : Config) (now : Nat) (name pass : String)
    (b : Bool) (st : CacheState) (h : lookup_client st.cache name = none) :
    clientsM (fetch_or_insert cfg now name pass b st).2 = st.nextId ::ₘ clientsM st
      ∧ (fetch_or_insert cfg now name pass b st).2.nextId = st.nextId + 1
      ∧ (fetch_or_insert cfg now name pass b st).1 = st.nextId := by
  obtain ⟨h1, h2, _, _⟩ := clientsM_evict_tail now st
  have key : ∀ st1 : CacheState, clientsM st1 = clientsM st → st1.nextId = st.nextId →
      clientsM (insert_front now name (make_client st1 pass b)).2
          = st.nextId ::ₘ clientsM st
        ∧ (insert_front now name (make_client st1 pass b)).2.nextId = st.nextId + 1
        ∧ (insert_front now name (make_client st1 pass b)).1 = st.nextId := by
    intro st1 hcm hnid
    refine ⟨?_, by simp [insert_front, make_client, hnid], by simp [insert_front, make_client, hnid]⟩
    rw [← hcm]
    simp only [insert_front, make_client, clientsM, List.map_cons,
      ← Multiset.cons_coe, Multiset.cons_add, hnid]
  unfold fetch_or_insert
  rw [h]
  by_cases hfull : cfg.max_size ≤ st.cache.length
  · rw [if_pos hfull]; exact key _ h1 h2
  · rw [if_neg hfull]; exact key st rfl rfl

theorem clientsM_fetch_hit (cfg : Config) (now : Nat) (name pass : String)
    (b : Bool) (st : CacheState) (e : Entry)
    (h : lookup_client st.cache name = some e) :
    clientsM (fetch_or_insert cfg now name pass b st).2 = clientsM st
      ∧ (fetch_or_insert cfg now name pass b st).2.nextId = st.nextId
      ∧ (fetch_or_insert cfg now name pass b st).1 = e.client := by
  have hfind : st.cache.find? (fun x => x.key == name) = some e := h
  have hperm : (st.cache.map Entry.client).Perm
      (e.client :: (st.cache.eraseP (fun x => x.key == name)).map Entry.client) := by
    simpa using (perm_cons_eraseP (fun x => x.key == name) hfind).map Entry.client
  have hm : (st.cache.map Entry.client : Multiset Nat)
      = e.client ::ₘ ((st.cache.eraseP (fun x => x.key == name)).map
          Entry.client : Multiset Nat) := by
    simpa using Multiset.coe_eq_coe.mpr hperm
  unfold fetch_or_insert
  rw [h]
  refine ⟨?_, by simp [touch_entry, update_pass_nextId], rfl⟩
  show clientsM (touch_entry now name e (update_pass pass e st)) = clientsM st
  rw [clientsM]
  simp only [touch_entry, update_pass_cache, update_pass_evicted, update_pass_stopLog]
  rw [clientsM]
  simp only [List.map_cons, ← Multiset.cons_coe, Multiset.cons_add, hm]

theorem filter_split_coe (p : Entry → Bool) (l : List Entry) :
    ((l.filter (fun e => !(p e))).map Entry.client : Multiset Nat)
      + ((l.filter p).map Entry.client : Multiset Nat)
      = (l.map Entry.client : Multiset Nat) := by
  have hperm : ((l.filter p ++ l.filter (fun e => !(p e))).map Entry.client).Perm
      (l.map Entry.client) := (List.filter_append_perm p l).map Entry.client
  have := Multiset.coe_eq_coe.mpr hperm
  rw [List.map_append, ← Multiset.coe_add] at this
  rw [← this]
  abel

theorem clientsM_clean (cfg : Config) (failing : List Nat) (now : Nat)
    (st : CacheState) :
    clientsM (clean_stale_clients cfg failing now st) = clientsM st
      ∧ (clean_stale_clients cfg failing now st).nextId = st.nextId := by
  rw [clean_stale_clients_eq]
  refine ⟨?_, rfl⟩
  show ((st.cache.filter (fun e => !(is_expired cfg.keep_alive now e))).map
        Entry.client : Multiset Nat)
      + (([] : List Entry).map Entry.client : Multiset Nat)
      + ((st.stopLog
          ++ (st.cache.filter (is_expired cfg.keep_alive now)).map Entry.client
          ++ st.evicted_items.map Entry.client : List Nat) : Multiset Nat)
      = clientsM st
  rw [clientsM]
  simp only [List.map_nil, ← Multiset.coe_add, Multiset.coe_nil]
  rw [← filter_split_coe (is_expired cfg.keep_alive now) st.cache]
  abel

theorem clientsM_stop (failing : List Nat) (st : CacheState) :
    clientsM (stop failing st) = clientsM st
      ∧ (stop failing st).nextId = st.nextId := by
  rw [stop_eq]
  refine ⟨?_, rfl⟩
  show (([] : List Entry).map Entry.client : Multiset Nat)
      + (([] : List Entry).map Entry.client : Multiset Nat)
      + ((st.stopLog
          ++ st.cache.map Entry.client
          ++ st.evicted_items.map Entry.client : List Nat) : Multiset Nat)
      = clientsM st
  rw [clientsM]
  simp only [List.map_nil, ← Multiset.coe_add, Multiset.coe_nil]
  abel

theorem inv_init : Inv init := rfl

theorem inv_step (cfg : Config) (st : CacheState) (op : Op) :
    Inv st → Inv (step cfg st op) := by
  intro hI
  cases op with
  | fetch now name pass b =>
    show Inv (fetch_or_insert cfg now name pass b st).2
    cases h : lookup_client st.cache name with
    | none =>
      obtain ⟨h1, h2, _⟩ := clientsM_fetch_miss cfg now name pass b st h
      unfold Inv
      rw [h1, h2, hI, Nat.add_one, Multiset.range_succ]
    | some e =>
      obtain ⟨h1, h2, _⟩ := clientsM_fetch_hit cfg now name pass b st e h
      unfold Inv
      rw [h1, h2, hI]
  | clean failing now =>
    obtain ⟨h1, h2⟩ := clientsM_clean cfg failing now st
    unfold Inv
    show clientsM (clean_stale_clients cfg failing now st)
        = Multiset.range (clean_stale_clients cfg failing now st).nextId
    rw [h1, h2, hI]
  | shutdown failing =>
    obtain ⟨h1, h2⟩ := clientsM_stop failing st
    unfold Inv
    show clientsM (stop failing st) = Multiset.range (stop failing st).nextId
    rw [h1, h2, hI]

theorem inv_run (cfg : Config) (ops : List Op) : Inv (run cfg ops) := by
  rw [run]
  have h : ∀ (l : List Op) (st : CacheState), Inv st → Inv (l.foldl (step cfg) st) := by
    intro l
    induction l with
    | nil => intro st h; exact h
    | cons op t ih => intro st h; exact ih _ (inv_step cfg st op h)
  exact h ops init inv_init

/-! ### Claim theorems -/

/-- Claim C3: with `max_size = 2`, starting empty: inserting `A` then `B` gives
size 2; inserting `C` evicts exactly `A` into the pending-teardown buffer and
the size stays 2 with `B`, `C` active; a `fetch_or_insert` on `B` promotes
`B` to the front of recency order; inserting `D` then evicts exactly `C`; the
final active set is `B`, `D`. -/
theorem lru_scenario_max2 :
    size demo2 = 2
    ∧ demo3.evicted_items = [{ key := "A", client := 0, last_used := 1 }]
    ∧ size demo3 = 2
    ∧ demo3.cache.map Entry.key = ["C", "B"]
    ∧ demo4.cache.map Entry.key = ["B", "C"]
    ∧ demo5.evicted_items.map Entry.key = ["A", "C"]
    ∧ demo5.cache.map Entry.key = ["D", "B"] := by decide

/-- Claim C4: a `clean_stale_clients` sweep removes from the Index, and stops,
exactly the entries with `last_used + keep_alive ≤ now` (`is_expired`),
keeping the others — a filter over the whole recency sequence, independent of
recency position.  (The sweep additionally drains the pending-teardown
buffer; that part of the stop log is the trailing summand.) -/
theorem clean_removes_exactly_expired (cfg : Config) (failing : List Nat)
    (now : Nat) (st : CacheState) :
    (clean_stale_clients cfg failing now st).cache
        = st.cache.filter (fun e => !(is_expired cfg.keep_alive now e))
    ∧ (clean_stale_clients cfg failing now st).stopLog
        = st.stopLog
          ++ (st.cache.filter (is_expired cfg.keep_alive now)).map Entry.client
          ++ st.evicted_items.map Entry.client := by
  rw [clean_stale_clients_eq]; exact ⟨rfl, rfl⟩

/-- Claim C5: after `stop()` the Index is empty (`size() = 0`) and the
pending-teardown buffer is empty; every Index entry's client was stopped
(appears in the stop log) before every buffer entry's client. -/
theorem stop_drains_all (failing : List Nat) (st : CacheState) :
    size (stop failing st) = 0
    ∧ (stop failing st).evicted_items = []
    ∧ (stop failing st).stopLog
        = st.stopLog ++ st.cache.map Entry.client
          ++ st.evicted_items.map Entry.client := by
  rw [stop_eq]; exact ⟨rfl, rfl, rfl⟩

/-- Claim C6: handle accounting over any operation sequence: the clients in the
Index, the pending-teardown buffer and the stop log are, with multiplicity,
exactly the allocated handles `0, ..., nextId - 1` — so every handle lives in
exactly one of the three places (once removed from both structures it has
been stopped), and the stop log is duplicate-free (no client is ever stopped
twice). -/
theorem clients_partition_exactly_once (cfg : Config) (ops : List Op) :
    (clientsOf (run cfg ops)).Perm (List.range (run cfg ops).nextId)
    ∧ (run cfg ops).stopLog.Nodup := by
  have hI : clientsM (run cfg ops) = Multiset.range (run cfg ops).nextId :=
    inv_run cfg ops
  have hperm : (clientsOf (run cfg ops)).Perm (List.range (run cfg ops).nextId) := by
    rw [← Multiset.coe_eq_coe, clientsOf_coe, Multiset.coe_range]
    exact hI
  refine ⟨hperm, ?_⟩
  have hnd : (clientsOf (run cfg ops)).Nodup :=
    hperm.symm.nodup (List.nodup_range _)
  rw [clientsOf] at hnd
  exact hnd.of_append_right

/-- Claim C8: teardown failures are isolated: whatever set of clients fail
their `stop()`, the sweep and the shutdown drain leave exactly the same
Index, buffer and stop log as a failure-free run (every removed client is
still stopped), the failures are logged in the fail log by the sweep and by
the shutdown drain alike, and both operations return normally (they are
total functions of the state). -/
theorem teardown_failure_isolated (cfg : Config) (failing : List Nat)
    (now : Nat) (st : CacheState) :
    (clean_stale_clients cfg failing now st).cache
        = (clean_stale_clients cfg [] now st).cache
    ∧ (clean_stale_clients cfg failing now st).evicted_items
        = (clean_stale_clients cfg [] now st).evicted_items
    ∧ (clean_stale_clients cfg failing now st).stopLog
        = (clean_stale_clients cfg [] now st).stopLog
    ∧ (stop failing st).cache = (stop [] st).cache
    ∧ (stop failing st).evicted_items = (stop [] st).evicted_items
    ∧ (stop failing st).stopLog = (stop [] st).stopLog
    ∧ (clean_stale_clients cfg failing now st).failLog
        = st.failLog
          ++ ((st.cache.filter (is_expired cfg.keep_alive now)).filter
                (fun e => decide (e.client ∈ failing))).map Entry.client
          ++ (st.evicted_items.filter
                (fun e => decide (e.client ∈ failing))).map Entry.client
    ∧ (stop failing st).failLog
        = st.failLog
          ++ (st.cache.filter
                (fun e => decide (e.client ∈ failing))).map Entry.client
          ++ (st.evicted_items.filter
                (fun e => decide (e.client ∈ failing))).map Entry.client := by
  rw [clean_stale_clients_eq, clean_stale_clients_eq, stop_eq, stop_eq]
  exact ⟨rfl, rfl, rfl, rfl, rfl, rfl, rfl, rfl⟩

/-- Claim C10: the sweep leaves every non-expired Index entry unchanged — the
surviving recency list is literally the filter of the old one (same entry
records, so same client handle and `last_used`, in the same relative order),
and no client's configured password is touched. -/
theorem clean_frames_unexpired (cfg : Config) (failing : List Nat) (now : Nat)
    (st : CacheState) :
    (clean_stale_clients cfg failing now st).cache
        = st.cache.filter (fun e => !(is_expired cfg.keep_alive now e))
    ∧ (clean_stale_clients cfg failing now st).passwords = st.passwords := by
  rw [clean_stale_clients_eq]; exact ⟨rfl, rfl⟩

/-- Claim C1 counterexample: with `max_size = 0`, a single `fetch_or_insert`
on the empty cache inserts without evicting (the eviction branch requires a
non-empty cache), so the entry count 1 exceeds the configured maximum 0. -/
theorem size_exceeds_zero_max :
    ¬ (size (fetch_or_insert { max_size := 0, keep_alive := 1000 } 0 "A" "p"
          true init).2
        ≤ ({ max_size := 0, keep_alive := 1000 } : Config).max_size) := by
  decide

theorem length_eraseP_of_find (p : Entry → Bool) (l : List Entry) (e : Entry)
    (h : l.find? p = some e) : (l.eraseP p).length + 1 = l.length := by
  simpa using (perm_cons_eraseP p h).length_eq.symm

theorem evict_tail_of_nil (now : Nat) (st : CacheState) (h : st.cache = []) :
    evict_tail now st = st := by
  unfold evict_tail
  rw [h]
  rfl

theorem evict_tail_cache_len (now : Nat) (st : CacheState) (hne : st.cache ≠ []) :
    (evict_tail now st).cache.length + 1 = st.cache.length := by
  unfold evict_tail
  rw [List.getLast?_eq_getLast_of_ne_nil hne, arm_cache]
  show st.cache.dropLast.length + 1 = st.cache.length
  rw [List.length_dropLast]
  have := List.length_pos.mpr hne
  omega

theorem size_step_le (cfg : Config) (st : CacheState) (op : Op)
    (h : size st ≤ max 1 cfg.max_size) :
    size (step cfg st op) ≤ max 1 cfg.max_size := by
  cases op with
  | fetch now name pass b =>
    show size (fetch_or_insert cfg now name pass b st).2 ≤ _
    unfold fetch_or_insert
    cases hl : lookup_client st.cache name with
    | some e =>
      have hlen := length_eraseP_of_find _ _ _ (hl : st.cache.find? _ = some e)
      show ((touch_entry now name e (update_pass pass e st)).cache.length) ≤ _
      rw [touch_entry]
      show ((update_pass pass e st).cache.eraseP (fun x => x.key == name)).length + 1 ≤ _
      rw [update_pass_cache]
      rw [hlen]
      exact h
    | none =>
      show (insert_front now name (make_client _ pass b)).2.cache.length ≤ _
      rw [insert_front]
      by_cases hfull : cfg.max_size ≤ st.cache.length
      · rw [if_pos hfull]
        show (evict_tail now st).cache.length + 1 ≤ _
        by_cases hnil : st.cache = []
        · rw [evict_tail_of_nil now st hnil, hnil]
          simp
        · rw [evict_tail_cache_len now st hnil]
          exact h
      · rw [if_neg hfull]
        show st.cache.length + 1 ≤ _
        rw [size] at h
        omega
  | clean failing now =>
    show size (clean_stale_clients cfg failing now st) ≤ _
    rw [size, clean_stale_clients_eq]
    exact le_trans (List.length_filter_le _ _) h
  | shutdown failing =>
    show size (stop failing st) ≤ _
    rw [size, stop_eq]
    exact le_trans (Nat.zero_le _) h

/-- Claim C1 as amended: over every operation sequence the Index entry count stays
at most `max 1 max_size`: at most `max_size` when `max_size ≥ 1`, but with a
configured maximum of zero a single entry can (and does) remain resident. -/
theorem run_size_le_max_one (cfg : Config) (ops : List Op) :
    size (run cfg ops) ≤ max 1 cfg.max_size := by
  rw [run]
  have h : ∀ (l : List Op) (st : CacheState), size st ≤ max 1 cfg.max_size →
      size (l.foldl (step cfg) st) ≤ max 1 cfg.max_size := by
    intro l
    induction l with
    | nil => intro st h; exact h
    | cons op t ih => intro st h; exact ih _ (size_step_le cfg st op h)
  exact h ops init (by simp [size, init])

theorem get_pass_cons_self (id : Nat) (v : String) (ps : List (Nat × String)) :
    get_pass ((id, v) :: ps) id = v := by
  simp [get_pass]

/-- Claim C2: on a hit the existing handle is returned (no client is
constructed: the allocation counter is unchanged) and afterwards the client's
configured password equals the supplied secret; when the supplied secret
already matches, the client heap is left completely untouched. -/
theorem fetch_hit_same_handle (cfg : Config) (now : Nat) (name pass : String)
    (b : Bool) (st : CacheState) (e : Entry)
    (h : lookup_client st.cache name = some e) :
    (fetch_or_insert cfg now name pass b st).1 = e.client
    ∧ (fetch_or_insert cfg now name pass b st).2.nextId = st.nextId
    ∧ get_pass (fetch_or_insert cfg now name pass b st).2.passwords e.client = pass
    ∧ (get_pass st.passwords e.client = pass →
        (fetch_or_insert cfg now name pass b st).2.passwords = st.passwords) := by
  unfold fetch_or_insert
  rw [h]
  refine ⟨rfl, by simp [touch_entry, update_pass_nextId], ?_, ?_⟩
  · show get_pass (update_pass pass e st).passwords e.client = pass
    unfold update_pass
    by_cases hp : get_pass st.passwords e.client ≠ pass
    · rw [if_pos hp]
      exact get_pass_cons_self _ _ _
    · rw [if_neg hp]
      exact not_not.mp hp
  · intro heq
    show (update_pass pass e st).passwords = st.passwords
    unfold update_pass
    rw [if_neg (fun hne => hne heq)]

/-- Witness for C2 at a concrete state: the cache holding `A` with password
`"p"`; a second fetch for `A` with secret `"q"` returns handle 0, allocates
nothing, and rewrites the stored password. -/
theorem fetch_hit_same_handle_witness :
    (fetch_or_insert demoCfg 9 "A" "q" true demo1).1
        = Entry.client { key := "A", client := 0, last_used := 1 }
    ∧ (fetch_or_insert demoCfg 9 "A" "q" true demo1).2.nextId = demo1.nextId
    ∧ get_pass (fetch_or_insert demoCfg 9 "A" "q" true demo1).2.passwords
        (Entry.client { key := "A", client := 0, last_used := 1 }) = "q"
    ∧ (get_pass demo1.passwords
          (Entry.client { key := "A", client := 0, last_used := 1 }) = "q" →
        (fetch_or_insert demoCfg 9 "A" "q" true demo1).2.passwords
          = demo1.passwords) :=
  fetch_hit_same_handle demoCfg 9 "A" "q" true demo1
    { key := "A", client := 0, last_used := 1 } (by decide)

/-- Claim C7: on a capacity eviction (miss with the cache full and non-empty)
the cleanup timer is re-armed to `now + 1s` exactly when it is unarmed or its
current deadline lies strictly beyond `now + 1s`; when it is armed with a
deadline at or within `now + 1s`, it is left untouched. -/
theorem evict_timer_debounce (cfg : Config) (now : Nat) (name pass : String)
    (b : Bool) (st : CacheState)
    (hmiss : lookup_client st.cache name = none)
    (hfull : cfg.max_size ≤ st.cache.length)
    (hne : st.cache ≠ []) :
    ((st.timer_armed = false ∨ now + evict_delay < st.timer_timeout) →
       (fetch_or_insert cfg now name pass b st).2.timer_armed = true
       ∧ (fetch_or_insert cfg now name pass b st).2.timer_timeout
           = now + evict_delay)
    ∧ ((st.timer_armed = true ∧ st.timer_timeout ≤ now + evict_delay) →
       (fetch_or_insert cfg now name pass b st).2.timer_armed = st.timer_armed
       ∧ (fetch_or_insert cfg now name pass b st).2.timer_timeout
           = st.timer_timeout) := by
  have hT : (fetch_or_insert cfg now name pass b st).2.timer_armed
        = (evict_tail now st).timer_armed
      ∧ (fetch_or_insert cfg now name pass b st).2.timer_timeout
        = (evict_tail now st).timer_timeout := by
    unfold fetch_or_insert
    rw [hmiss, if_pos hfull]
    exact ⟨rfl, rfl⟩
  rw [hT.1, hT.2]
  unfold evict_tail
  rw [List.getLast?_eq_getLast_of_ne_nil hne]
  show ((st.timer_armed = false ∨ now + evict_delay < st.timer_timeout) →
        (arm_after_evict now _).timer_armed = true
        ∧ (arm_after_evict now _).timer_timeout = now + evict_delay)
      ∧ _
  unfold arm_after_evict
  cases ha : st.timer_armed <;>
    by_cases hlt : now + evict_delay < st.timer_timeout <;>
    simp [ha, hlt]

/-- Witness for C7: inserting a third identity into the full two-slot cache
with the timer unarmed arms it for `now + 1s`. -/
theorem evict_timer_debounce_witness :
    ((demo2.timer_armed = false ∨ 3 + evict_delay < demo2.timer_timeout) →
       (fetch_or_insert demoCfg 3 "C" "p" true demo2).2.timer_armed = true
       ∧ (fetch_or_insert demoCfg 3 "C" "p" true demo2).2.timer_timeout
           = 3 + evict_delay)
    ∧ ((demo2.timer_armed = true ∧ demo2.timer_timeout ≤ 3 + evict_delay) →
       (fetch_or_insert demoCfg 3 "C" "p" true demo2).2.timer_armed
           = demo2.timer_armed
       ∧ (fetch_or_insert demoCfg 3 "C" "p" true demo2).2.timer_timeout
           = demo2.timer_timeout) :=
  evict_timer_debounce demoCfg 3 "C" "p" true demo2
    (by decide) (by decide) (by decide)

theorem mem_clientsOf_cache {st : CacheState} {x : Entry} (hx : x ∈ st.cache) :
    x.client ∈ clientsOf st := by
  rw [clientsOf]
  exact List.mem_append_left _ (List.mem_append_left _ (List.mem_map_of_mem _ hx))

theorem mem_clientsOf_evicted {st : CacheState} {x : Entry}
    (hx : x ∈ st.evicted_items) : x.client ∈ clientsOf st := by
  rw [clientsOf]
  exact List.mem_append_left _ (List.mem_append_right _ (List.mem_map_of_mem _ hx))

theorem mem_clientsOf_stopLog {st : CacheState} {c : Nat}
    (hc : c ∈ st.stopLog) : c ∈ clientsOf st := by
  rw [clientsOf]
  exact List.mem_append_right _ hc

/-- The shape of a miss: the returned handle is the fresh id, the new entry
sits at the front, the surviving tail comes from the old recency list, the
old buffer contents stay buffered (possibly joined by the evicted tail
entry), and nothing is stopped. -/
theorem fetch_miss_shape (cfg : Config) (now : Nat) (name pass : String)
    (b : Bool) (st : CacheState) (h : lookup_client st.cache name = none) :
    (fetch_or_insert cfg now name pass b st).1 = st.nextId
    ∧ ∃ tail : List Entry,
      (fetch_or_insert cfg now name pass b st).2.cache
          = { key := name, client := st.nextId, last_used := now } :: tail
      ∧ (∀ x ∈ tail, x ∈ st.cache)
      ∧ (∀ x ∈ st.evicted_items,
          x ∈ (fetch_or_insert cfg now name pass b st).2.evicted_items)
      ∧ (∀ x ∈ (fetch_or_insert cfg now name pass b st).2.evicted_items,
          x ∈ st.evicted_items ∨ x ∈ st.cache)
      ∧ (fetch_or_insert cfg now name pass b st).2.stopLog = st.stopLog := by
  unfold fetch_or_insert
  rw [h]
  by_cases hfull : cfg.max_size ≤ st.cache.length
  · rw [if_pos hfull]
    unfold evict_tail
    cases hl : st.cache.getLast? with
    | none =>
      exact ⟨rfl, st.cache, rfl, fun x hx => hx, fun x hx => hx,
        fun x hx => Or.inl hx, rfl⟩
    | some item =>
      have hc : st.cache.dropLast ++ [item] = st.cache :=
        List.dropLast_append_getLast? item (by simp [hl])
      have hitem : item ∈ st.cache := by
        rw [← hc]
        exact List.mem_append_right _ (List.mem_singleton_self item)
      have hdl : ∀ x ∈ st.cache.dropLast, x ∈ st.cache := by
        intro x hx
        rw [← hc]
        exact List.mem_append_left _ hx
      refine ⟨by simp [insert_front, make_client, arm_nextId],
        (arm_after_evict now
          { st with cache := st.cache.dropLast,
                    evicted_items := st.evicted_items ++ [item] }).cache,
        by simp [insert_front, make_client, arm_nextId], ?_, ?_, ?_,
        by simp [insert_front, make_client, arm_stopLog]⟩
      · rw [arm_cache]
        exact hdl
      · intro x hx
        show x ∈ (arm_after_evict now
            { st with cache := st.cache.dropLast,
                      evicted_items := st.evicted_items ++ [item] }).evicted_items
        rw [arm_evicted]
        exact List.mem_append_left _ hx
      · intro x hx
        have hx' : x ∈ (arm_after_evict now
            { st with cache := st.cache.dropLast,
                      evicted_items := st.evicted_items ++ [item] }).evicted_items := hx
        rw [arm_evicted] at hx'
        rcases List.mem_append.mp hx' with hx'' | hx''
        · exact Or.inl hx''
        · rw [List.mem_singleton] at hx''
          exact Or.inr (hx'' ▸ hitem)
  · rw [if_neg hfull]
    exact ⟨rfl, st.cache, rfl, fun x hx => hx, fun x hx => hx,
      fun x hx => Or.inl hx, rfl⟩

/-- Claim C9: if `name` was evicted into the pending-teardown buffer (entry
`e`) and is fetched again before the next sweep, a fresh, distinct handle is
built and inserted into the Index while `e` stays buffered — the identity is
simultaneously in both structures with two different handles; the next sweep
then stops the old buffered handle and, as long as the new entry has not yet
expired, keeps the new Index entry active and unstopped. -/
theorem evicted_identity_reinsert (cfg : Config) (failing : List Nat)
    (now now2 : Nat) (name pass : String) (b : Bool) (st : CacheState)
    (e : Entry)
    (hmiss : lookup_client st.cache name = none)
    (hbuf : e ∈ st.evicted_items) (_hkey : e.key = name)
    (hfresh : ∀ c ∈ clientsOf st, c ≠ st.nextId)
    (hlive : ¬ (now + cfg.keep_alive ≤ now2)) :
    (fetch_or_insert cfg now name pass b st).1 = st.nextId
    ∧ (fetch_or_insert cfg now name pass b st).1 ≠ e.client
    ∧ { key := name, client := st.nextId, last_used := now }
        ∈ (fetch_or_insert cfg now name pass b st).2.cache
    ∧ e ∈ (fetch_or_insert cfg now name pass b st).2.evicted_items
    ∧ e.client ∈ (clean_stale_clients cfg failing now2
        (fetch_or_insert cfg now name pass b st).2).stopLog
    ∧ { key := name, client := st.nextId, last_used := now }
        ∈ (clean_stale_clients cfg failing now2
            (fetch_or_insert cfg now name pass b st).2).cache
    ∧ st.nextId ∉ (clean_stale_clients cfg failing now2
        (fetch_or_insert cfg now name pass b st).2).stopLog := by
  obtain ⟨h1, tail, hcache, htail, hevin, hevout, hslog⟩ :=
    fetch_miss_shape cfg now name pass b st hmiss
  have hnew : { key := name, client := st.nextId, last_used := now }
      ∈ (fetch_or_insert cfg now name pass b st).2.cache := by
    rw [hcache]; exact List.mem_cons_self _ _
  have hev : e ∈ (fetch_or_insert cfg now name pass b st).2.evicted_items :=
    hevin e hbuf
  have hexp : is_expired cfg.keep_alive now2
      { key := name, client := st.nextId, last_used := now } = false := by
    simp [is_expired, hlive]
  refine ⟨h1, ?_, hnew, hev, ?_, ?_, ?_⟩
  · rw [h1]
    exact fun hne => hfresh e.client (mem_clientsOf_evicted hbuf) hne.symm
  · rw [clean_stale_clients_eq]
    show e.client ∈ _ ++ _ ++ (fetch_or_insert cfg now name pass b
        st).2.evicted_items.map Entry.client
    exact List.mem_append_right _ (List.mem_map_of_mem _ hev)
  · rw [clean_stale_clients_eq]
    show _ ∈ (fetch_or_insert cfg now name pass b st).2.cache.filter _
    rw [List.mem_filter]
    exact ⟨hnew, by rw [hexp]; rfl⟩
  · rw [clean_stale_clients_eq]
    show ¬ (st.nextId ∈ _ ++ _ ++ _)
    intro hmem
    rw [hslog] at hmem
    rcases List.mem_append.mp hmem with hmem | hmem
    · rcases List.mem_append.mp hmem with hmem | hmem
      · exact hfresh _ (mem_clientsOf_stopLog hmem) rfl
      · rcases List.mem_map.mp hmem with ⟨x, hxf, hxc⟩
        rcases List.mem_filter.mp hxf with ⟨hxmem, hxexp⟩
        rw [hcache] at hxmem
        rcases List.mem_cons.mp hxmem with hxeq | hxtail
        · rw [hxeq, hexp] at hxexp
          exact absurd hxexp (by simp)
        · exact hfresh _ (mem_clientsOf_cache (htail x hxtail)) hxc
    · rcases List.mem_map.mp hmem with ⟨x, hxmem, hxc⟩
      rcases hevout x hxmem with hx | hx
      · exact hfresh _ (mem_clientsOf_evicted hx) hxc
      · exact hfresh _ (mem_clientsOf_cache hx) hxc

/-- Witness for C9: in the scenario state where `A`'s old entry (handle 0)
sits in the buffer, re-fetching `A` builds fresh handle 3; the sweep right
afterwards stops handle 0 but keeps and never stops the new entry. -/
theorem evicted_identity_reinsert_witness :
    (fetch_or_insert demoCfg 6 "A" "q" true demo3).1 = demo3.nextId
    ∧ (fetch_or_insert demoCfg 6 "A" "q" true demo3).1
        ≠ Entry.client { key := "A", client := 0, last_used := 1 }
    ∧ { key := "A", client := demo3.nextId, last_used := 6 }
        ∈ (fetch_or_insert demoCfg 6 "A" "q" true demo3).2.cache
    ∧ ({ key := "A", client := 0, last_used := 1 } : Entry)
        ∈ (fetch_or_insert demoCfg 6 "A" "q" true demo3).2.evicted_items
    ∧ Entry.client { key := "A", client := 0, last_used := 1 }
        ∈ (clean_stale_clients demoCfg [] 7
            (fetch_or_insert demoCfg 6 "A" "q" true demo3).2).stopLog
    ∧ { key := "A", client := demo3.nextId, last_used := 6 }
        ∈ (clean_stale_clients demoCfg [] 7
            (fetch_or_insert demoCfg 6 "A" "q" true demo3).2).cache
    ∧ demo3.nextId ∉ (clean_stale_clients demoCfg [] 7
        (fetch_or_insert demoCfg 6 "A" "q" true demo3).2).stopLog :=
  evicted_identity_reinsert demoCfg [] 6 7 "A" "q" true demo3
    { key := "A", client := 0, last_used := 1 }
    (by decide) (by decide) rfl (by decide) (by decide)

end KafkaClientCache
